import Mathlib

/-!
Verification of the macoptima disk-usage analyzer against its design spec.

The development shallowly embeds the three Python modules:

* cache_storage_analyzer.py : the subtree aggregator (analyze_directory,
  get_file_age_days, get_directory_size);
* main.py : the large-file finder (find_large_files);
* application_storage_analyzer.py with src/apps/chrome.py :
  the application inventory (analyze_application,
  analyze_applications_folder, ChromeAnalyzer).

Filesystem trees are modelled as inductive values.  Machine-dependent inputs
(stat results, wall-clock readings, symlink targets) are explicit data, so
every definition is executable.  Python float timestamps are modelled as
rationals; file sizes are naturals.  Paths are lists of components, so that
joining a directory prefix with a child name is list append.

A key point of fidelity: pathlib's Path.is_file and Path.is_dir FOLLOW
symbolic links (a symlink whose target is a regular file makes is_file
return True), while Path.rglob does not descend through a symlink to a
directory, and os.path.islink in main.py detects the link itself.  The
embedding encodes exactly these semantics.
-/

namespace MacOptima

/-- Per-file machine facts consulted by the aggregator walk:
the byte size and modification time returned by stat, the wall-clock
reading taken inside get_file_age_days when this file is examined
(datetime.now() is called once per file), whether the is_file/stat calls
in the analyze_directory loop succeed (statOk = false models a
PermissionError/OSError raised by stat), and whether the separate
os.path.getmtime call inside get_file_age_days succeeds (ageOk). -/
structure FileData where
  size : Nat
  mtime : ℚ
  nowAt : ℚ
  statOk : Bool
  ageOk : Bool
deriving DecidableEq

/-- A node of an on-disk directory tree, as seen by pathlib.
linkFile is a symlink whose target is a regular file (is_file sees it as a
file); linkDir is a symlink whose target is a directory with the given
contents (is_dir sees a directory, rglob does not descend into it, but an
rglob started at the link itself does); special is an entry for which both
is_file and is_dir are false (broken symlink, socket, fifo).  The statOk
flag on dir/linkDir models whether stat on that entry succeeds. -/
inductive FSNode where
  | file (name : String) (d : FileData)
  | linkFile (name : String) (d : FileData)
  | dir (name : String) (statOk : Bool) (children : List FSNode)
  | linkDir (name : String) (statOk : Bool) (target : List FSNode)
  | special (name : String)

/-- What the analyze_directory loop can observe about one yielded path:
is_file() true (a regular file, or a symlink resolving to one),
is_dir() true, or neither.  A false statOk means the stat underlying
is_file raises, which the loop's except clause turns into a skip. -/
inductive ItemInfo where
  | file (d : FileData)
  | dir (statOk : Bool)
  | special
deriving DecidableEq

/-- One path yielded by the rglob/glob iterator. -/
structure Item where
  path : List String
  name : String
  info : ItemInfo
deriving DecidableEq

/-- The item the iterator yields for a node itself (before any recursion).
Path.is_file follows symlinks, so a linkFile node is indistinguishable
from a regular file here; likewise linkDir is seen by is_dir. -/
def FSNode.selfItem (pre : List String) : FSNode → Item
  | .file n d => ⟨pre ++ [n], n, .file d⟩
  | .linkFile n d => ⟨pre ++ [n], n, .file d⟩
  | .dir n ok _ => ⟨pre ++ [n], n, .dir ok⟩
  | .linkDir n ok _ => ⟨pre ++ [n], n, .dir ok⟩
  | .special n => ⟨pre ++ [n], n, .special⟩

mutual

/-- All items yielded by path.rglob applied from a node: the node itself,
then (for a true directory only) its subtree.  rglob does not descend
through a symlink to a directory. -/
def FSNode.items (pre : List String) : FSNode → List Item
  | .file n d => [⟨pre ++ [n], n, .file d⟩]
  | .linkFile n d => [⟨pre ++ [n], n, .file d⟩]
  | .dir n ok cs => ⟨pre ++ [n], n, .dir ok⟩ :: FSNode.itemsList (pre ++ [n]) cs
  | .linkDir n ok _ => [⟨pre ++ [n], n, .dir ok⟩]
  | .special n => [⟨pre ++ [n], n, .special⟩]

/-- Items yielded by rglob over a forest of sibling nodes, in order. -/
def FSNode.itemsList (pre : List String) : List FSNode → List Item
  | [] => []
  | c :: cs => FSNode.items pre c ++ FSNode.itemsList pre cs

end

/-- Items yielded by the non-recursive path.glob, i.e. only the immediate
children themselves. -/
def shallowItems (pre : List String) : List FSNode → List Item
  | [] => []
  | c :: cs => c.selfItem pre :: shallowItems pre cs

/-- get_file_age_days of cache_storage_analyzer.py: on a successful
os.path.getmtime, (datetime.now().timestamp() - mtime) / (60*60*24);
on OSError it returns 0. -/
def get_file_age_days (d : FileData) : ℚ :=
  if d.ageOk then (d.nowAt - d.mtime) / (60 * 60 * 24) else 0

/-- The five-bucket age histogram of analyze_directory. -/
structure AgeDist where
  b0_7 : Nat
  b7_30 : Nat
  b30_90 : Nat
  b90_365 : Nat
  b1y : Nat
deriving DecidableEq

/-- Sum of the five bucket counts. -/
def AgeDist.total (a : AgeDist) : Nat :=
  a.b0_7 + a.b7_30 + a.b30_90 + a.b90_365 + a.b1y

/-- The if/elif chain of analyze_directory lines 113-122: place one file of
the given age into its bucket. -/
def AgeDist.bump (age_days : ℚ) (a : AgeDist) : AgeDist :=
  if age_days ≤ 7 then { a with b0_7 := a.b0_7 + 1 }
  else if age_days ≤ 30 then { a with b7_30 := a.b7_30 + 1 }
  else if age_days ≤ 90 then { a with b30_90 := a.b30_90 + 1 }
  else if age_days ≤ 365 then { a with b90_365 := a.b90_365 + 1 }
  else { a with b1y := a.b1y + 1 }

/-- One bucket of the file_types defaultdict: count and accumulated size. -/
structure TypeStat where
  count : Nat
  size : Nat
deriving DecidableEq

/-- stats['file_types'][ext]['count'] += 1; ...['size'] += size, on the
defaultdict (missing keys read as zeros). -/
def updateTypes (f : String → TypeStat) (ext : String) (sz : Nat) :
    String → TypeStat :=
  fun e => if e = ext then ⟨(f ext).count + 1, (f ext).size + sz⟩ else f e

/-- CPython pathlib PurePath.suffix: with i = name.rfind of a dot,
the suffix is name[i:] when 0 < i < len(name) - 1, else the empty string. -/
def pySuffix (name : String) : String :=
  let cs := name.data
  match ((List.range cs.length).filter (fun i => cs.getD i ' ' = '.')).getLast? with
  | none => ""
  | some i => if 0 < i ∧ i < cs.length - 1 then String.mk (cs.drop i) else ""

/-- analyze_directory line 107: ext = item.suffix.lower() if item.suffix
else the literal no-extension bucket name. -/
def extOf (name : String) : String :=
  let suf := pySuffix name
  if suf = "" then "(no extension)" else suf.toLower

/-- The stats dictionary built by analyze_directory. -/
structure Stats where
  total_size : Nat
  file_count : Nat
  folder_count : Nat
  oldest_file : Option (List String × ℚ)
  newest_file : Option (List String × ℚ)
  largest_file : Option (List String × Nat)
  file_types : String → TypeStat
  age_distribution : AgeDist
  subfolders : List (List String × Nat)

/-- The loop state: the stats dictionary plus the three tracker variables
oldest_time, newest_time, largest_size. -/
structure LoopState where
  stats : Stats
  oldest_time : ℚ
  newest_time : ℚ
  largest_size : Nat

/-- The stats dictionary as initialised at analyze_directory lines 55-71. -/
def initStats : Stats :=
  { total_size := 0, file_count := 0, folder_count := 0,
    oldest_file := none, newest_file := none, largest_file := none,
    file_types := fun _ => ⟨0, 0⟩,
    age_distribution := ⟨0, 0, 0, 0, 0⟩, subfolders := [] }

/-- Lines 73-75: oldest_time starts at the wall clock at walk start,
newest_time at 0, largest_size at 0. -/
def initState (startNow : ℚ) : LoopState :=
  { stats := initStats, oldest_time := startNow, newest_time := 0,
    largest_size := 0 }

/-- The body of the for-loop of analyze_directory (lines 83-128) for one
yielded item.  An entry whose stat raises (statOk false) hits the except
clause and leaves the state untouched.  A counted file updates every
aggregate; the three trackers use strict comparisons against the current
tracker values. -/
def processItem (st : LoopState) (i : Item) : LoopState :=
  match i.info with
  | .special => st
  | .dir ok =>
    if ok then
      { st with stats := { st.stats with
          folder_count := st.stats.folder_count + 1 } }
    else st
  | .file d =>
    if d.statOk then
      let size := d.size
      let mtime := d.mtime
      let oldHit := mtime < st.oldest_time
      let newHit := mtime > st.newest_time
      let bigHit := size > st.largest_size
      { oldest_time := if oldHit then mtime else st.oldest_time,
        newest_time := if newHit then mtime else st.newest_time,
        largest_size := if bigHit then size else st.largest_size,
        stats :=
          { total_size := st.stats.total_size + size,
            file_count := st.stats.file_count + 1,
            folder_count := st.stats.folder_count,
            oldest_file := if oldHit then some (i.path, mtime)
                           else st.stats.oldest_file,
            newest_file := if newHit then some (i.path, mtime)
                           else st.stats.newest_file,
            largest_file := if bigHit then some (i.path, size)
                            else st.stats.largest_file,
            file_types := updateTypes st.stats.file_types (extOf i.name) size,
            age_distribution :=
              AgeDist.bump (get_file_age_days d) st.stats.age_distribution,
            subfolders := st.stats.subfolders } }
    else st

/-- The whole main walk: fold the loop body over the yielded items. -/
def analyzeItems (startNow : ℚ) (its : List Item) : LoopState :=
  its.foldl processItem (initState startNow)

/-- The size an item contributes to get_directory_size / total_size:
its stat size when it is a file whose stat succeeds, else nothing. -/
def countedSize : Item → Nat
  | ⟨_, _, .file d⟩ => if d.statOk then d.size else 0
  | _ => 0

/-- get_directory_size of cache_storage_analyzer.py: rglob over the
directory contents, summing stat sizes of entries whose is_file and stat
succeed.  The argument is the contents of the directory being sized. -/
def get_directory_size (cs : List FSNode) : Nat :=
  ((FSNode.itemsList [] cs).map countedSize).sum

/-- The contents rglob enumerates when get_directory_size is applied to
this child entry: a true directory's children, or, for a symlink to a
directory, the target's children (the initial path of a glob is resolved
even though inner symlinks are not). -/
def FSNode.sizedContents : FSNode → List FSNode
  | .dir _ _ cs => cs
  | .linkDir _ _ t => t
  | _ => []

/-- The final path component of a node. -/
def FSNode.nameOf : FSNode → String
  | .file n _ => n
  | .linkFile n _ => n
  | .dir n _ _ => n
  | .linkDir n _ _ => n
  | .special n => n

/-- Whether is_dir() answers true for this immediate child in the
subfolder scan (line 139); symlinks to directories qualify. -/
def FSNode.isDirEntry : FSNode → Bool
  | .dir _ _ _ => true
  | .linkDir _ _ _ => true
  | _ => false

/-- Whether stat on this child succeeds; when it fails is_dir()
propagates the error (pathlib only swallows file-not-found style
errors, not permission errors). -/
def FSNode.childStatOk : FSNode → Bool
  | .file _ d => d.statOk
  | .linkFile _ d => d.statOk
  | .dir _ ok _ => ok
  | .linkDir _ ok _ => ok
  | .special _ => true

/-- Python dict assignment subfolder_sizes[key] = size: overwrite in place
when the key exists, else append (insertion order preserved). -/
def dictInsert (d : List (List String × Nat)) (k : List String) (v : Nat) :
    List (List String × Nat) :=
  if d.any (fun kv => kv.1 = k) then
    d.map (fun kv => if kv.1 = k then (k, v) else kv)
  else d ++ [(k, v)]

/-- The subfolder scan of analyze_directory lines 136-147: iterate over the
immediate children; for each is_dir child record its full recursive size
when positive.  The is_dir() call is outside the inner try, so a child
whose stat raises aborts the remaining scan (the outer except passes,
keeping whatever was accumulated). -/
def subfolderScan (pre : List String) : List FSNode → List (List String × Nat) →
    List (List String × Nat)
  | [], acc => acc
  | c :: rest, acc =>
    if c.childStatOk then
      if c.isDirEntry then
        let s := get_directory_size c.sizedContents
        subfolderScan pre rest
          (if s > 0 then dictInsert acc (pre ++ [c.nameOf]) s else acc)
      else subfolderScan pre rest acc
    else acc

/-- Sort descending by the size component, as sorted(key, reverse=True):
a stable merge sort with the flipped comparison. -/
def sortDescBySize (l : List (List String × Nat)) : List (List String × Nat) :=
  l.mergeSort (fun a b => b.2 ≤ a.2)

/-- Lines 150-153: sort the collected subfolder sizes descending and keep
the first top_n. -/
def topSubfolders (pre : List String) (cs : List FSNode) (top_n : Nat) :
    List (List String × Nat) :=
  (sortDescBySize (subfolderScan pre cs [])).take top_n

/-- analyze_directory of cache_storage_analyzer.py.  pathExists models
path.exists(); walkOk models the outer try around the iterator (False:
an OSError/PermissionError escapes the loop and None is returned after a
printed message).  startNow is the wall clock at line 73; pre/children
give the root path and its tree; the remaining arguments mirror the
Python keyword arguments. -/
def analyze_directory (pathExists walkOk : Bool) (startNow : ℚ)
    (pre : List String) (children : List FSNode)
    (recursive show_subfolders : Bool) (top_n : Nat) : Option Stats :=
  if pathExists then
    if walkOk then
      let its := if recursive then FSNode.itemsList pre children
                 else shallowItems pre children
      let st := analyzeItems startNow its
      some (if show_subfolders then
              { st.stats with subfolders := topSubfolders pre children top_n }
            else st.stats)
    else none
  else none

/-- Whether the walk counts this item as a file: is_file answered true and
the stat calls succeeded. -/
def isCountedFile : Item → Bool
  | ⟨_, _, .file d⟩ => d.statOk
  | _ => false

/-- Whether the iterator reported this item as a regular file (pathlib
is_file, which resolves symlinks), successfully stat'd or not. -/
def isFileItem : Item → Bool
  | ⟨_, _, .file _⟩ => true
  | _ => false

/-- A regular-file item whose stat raised, i.e. one the walk skipped. -/
def isDeniedFile : Item → Bool
  | ⟨_, _, .file d⟩ => !d.statOk
  | _ => false

/-- Whether the walk counts this item as a folder. -/
def isCountedDir : Item → Bool
  | ⟨_, _, .dir ok⟩ => ok
  | _ => false

/-- The same item after its stat starts raising a permission error:
is_file/is_dir now fail before anything is recorded. -/
def markDenied (i : Item) : Item :=
  { i with info :=
      match i.info with
      | .file d => .file { d with statOk := false }
      | .dir _ => .dir false
      | .special => .special }

/-- The mtime of a file item (0 for non-files; only read under an
isCountedFile guard). -/
def itemMtime : Item → ℚ
  | ⟨_, _, .file d⟩ => d.mtime
  | _ => 0

/-- The subfolder entries a completed scan records, in child order: one
(path, recursive size) pair per is_dir child whose size is positive. -/
def dirEntries (pre : List String) : List FSNode → List (List String × Nat)
  | [] => []
  | c :: cs =>
    (if c.isDirEntry ∧ 0 < get_directory_size c.sizedContents then
      [(pre ++ [c.nameOf], get_directory_size c.sizedContents)]
     else []) ++ dirEntries pre cs

/-- An immediate child the subfolder scan records: is_dir answers true and
its full recursive size is positive. -/
def positiveDirChild (c : FSNode) : Bool :=
  c.isDirEntry && decide (0 < get_directory_size c.sizedContents)

/-- Non-increasing in the size component. -/
def sizesDesc (l : List (List String × Nat)) : Prop :=
  l.Pairwise (fun a b => b.2 ≤ a.2)

/-- Strictly decreasing in the size component. -/
def sizesStrictDesc (l : List (List String × Nat)) : Prop :=
  l.Pairwise (fun a b => b.2 < a.2)

/-- Drop the wall-clock reading recorded for a file: what remains is
exactly the on-disk data. -/
def eraseClockData (d : FileData) : FileData :=
  { d with nowAt := 0 }

mutual

/-- A tree with every wall-clock reading dropped: two runs over the same
unmodified tree see forests with the same erasure. -/
def eraseClockNode : FSNode → FSNode
  | .file n d => .file n (eraseClockData d)
  | .linkFile n d => .linkFile n (eraseClockData d)
  | .dir n ok cs => .dir n ok (eraseClockForest cs)
  | .linkDir n ok t => .linkDir n ok (eraseClockForest t)
  | .special n => .special n

/-- Pointwise erasure of a forest. -/
def eraseClockForest : List FSNode → List FSNode
  | [] => []
  | c :: cs => eraseClockNode c :: eraseClockForest cs

end

/-- Erasure of one yielded item. -/
def eraseClockItem (i : Item) : Item :=
  { i with info :=
      match i.info with
      | .file d => .file (eraseClockData d)
      | x => x }

/-- The components of the result that do not mention any wall-clock
reading: everything except the age histogram and the oldest-file tracker
(whose sentinel is the walk-start time). -/
def Stats.clockFree (s : Stats) :
    Nat × Nat × Nat × Option (List String × ℚ) × Option (List String × Nat) ×
      (String → TypeStat) × List (List String × Nat) :=
  (s.total_size, s.file_count, s.folder_count, s.newest_file,
   s.largest_file, s.file_types, s.subfolders)

/-- The clock-independent part of the loop state: the clock-free stats
fields together with the newest/largest tracker variables (both of which
start from constants, not from the clock). -/
def LoopState.cfView (s : LoopState) :
    Nat × Nat × Nat × Option (List String × ℚ) × Option (List String × Nat) ×
      (String → TypeStat) × List (List String × Nat) × ℚ × Nat :=
  (s.stats.total_size, s.stats.file_count, s.stats.folder_count,
   s.stats.newest_file, s.stats.largest_file, s.stats.file_types,
   s.stats.subfolders, s.newest_time, s.largest_size)

/-!
## Large-file finder (main.py)

os.walk yields, for each visited directory, its subdirectory names and its
non-directory entry names; pruning the dirs list in place prevents descent.
The files of a directory are processed before any subdirectory is visited.
-/

/-- A directory tree as os.walk sees it: non-directory entries carry their
size, whether the entry is a symbolic link (os.path.islink), and whether
os.path.getsize succeeds. -/
inductive WTree where
  | file (name : String) (size : Nat) (isLink : Bool) (statOk : Bool)
  | dir (name : String) (children : List WTree)

/-- The inner loop of find_large_files for one directory entry: skip
symbolic links, skip entries whose getsize raises, record the rest when
the size is at least the byte threshold. -/
def fileCandidate (minB : ℚ) (pre : List String) : WTree → Option (List String × Nat)
  | .file n sz lnk ok =>
    if lnk then none
    else if ok then (if (sz : ℚ) ≥ minB then some (pre ++ [n], sz) else none)
    else none
  | .dir _ _ => none

/-- The candidates contributed by the files of one directory, in listing
order. -/
def filesOf (minB : ℚ) (pre : List String) (children : List WTree) :
    List (List String × Nat) :=
  children.filterMap (fileCandidate minB pre)

mutual

/-- All candidates collected by os.walk from a directory with the given
children: its own files first, then each non-pruned subdirectory
recursively. -/
def walkDir (excl : List String) (minB : ℚ) (pre : List String)
    (children : List WTree) : List (List String × Nat) :=
  filesOf minB pre children ++ walkSubdirs excl minB pre children

/-- The recursive part: subdirectories whose name is in the exclusion set
are removed from the dirs list before descent, so their contents are
never visited. -/
def walkSubdirs (excl : List String) (minB : ℚ) (pre : List String) :
    List WTree → List (List String × Nat)
  | [] => []
  | .file _ _ _ _ :: cs => walkSubdirs excl minB pre cs
  | .dir n dcs :: cs =>
    (if n ∈ excl then [] else walkDir excl minB (pre ++ [n]) dcs) ++
      walkSubdirs excl minB pre cs

end

/-- find_large_files of main.py: collect all candidates at or above
min_size_mb megabytes (threshold in bytes is min_size_mb * 1024 * 1024,
a float, hence rational here), sort descending by size, then truncate to
max_results. -/
def find_large_files (children : List WTree) (min_size_mb : ℚ)
    (max_results : Nat) (exclude_dirs : List String) :
    List (List String × Nat) :=
  (sortDescBySize (walkDir exclude_dirs (min_size_mb * 1024 * 1024) [] children)).take
    max_results

/-- Stated from the spec's words, for comparison with the implementation:
the non-symlink regular files whose stat succeeds, whose size is at or
above the threshold, and that do not lie below any directory whose name
is in the exclusion set, gathered in tree order. -/
def specLargeFiles (excl : List String) (minB : ℚ) (pre : List String) :
    List WTree → List (List String × Nat)
  | [] => []
  | .file n sz lnk ok :: cs =>
    (if lnk = false ∧ ok = true ∧ (sz : ℚ) ≥ minB then [(pre ++ [n], sz)] else []) ++
      specLargeFiles excl minB pre cs
  | .dir n dcs :: cs =>
    (if n ∈ excl then [] else specLargeFiles excl minB (pre ++ [n]) dcs) ++
      specLargeFiles excl minB pre cs

/-!
## Application inventory (application_storage_analyzer.py, src/apps/chrome.py)
-/

/-- What the analyzers can observe about one support/cache directory:
its contents (for get_directory_size), its stat modification time, and
whether that stat succeeds. -/
structure DirInfo where
  children : List FSNode
  mtime : ℚ
  statOk : Bool

/-- The machine environment consulted by analyze_application: the per-user
Application Support and Caches roots (a folder name resolves to its
directory when it exists), the parsed mdls kMDItemLastUsedDate result
(none when the command fails, times out, prints null, or does not parse),
and whether the ChromeAnalyzer import succeeded. -/
structure Env where
  appSupport : String → Option DirInfo
  caches : String → Option DirInfo
  mdlsDate : Option ℚ
  hasChrome : Bool

/-- The fields analyze_application reads from a parsed Info.plist, with
the dictionary-get defaults already applied. -/
structure PlistInfo where
  bundle_id : String
  version : String
  bundle_name : String
deriving DecidableEq

/-- One candidate entry of the applications folder: its stem and suffix,
whether it exists and is a directory, its contents, whether its own stat
succeeds, its stat birth/modification times, and the parsed plist (none
when Info.plist is missing or unreadable). -/
structure AppPath where
  stem : String
  suffix : String
  present : Bool
  children : List FSNode
  statOk : Bool
  birthtime : ℚ
  mtime : ℚ
  plist : Option PlistInfo

/-- The record analyze_application returns for one application. -/
structure AppInfo where
  name : String
  size : Nat
  data_size : Nat
  cache_size : Nat
  created : ℚ
  modified : ℚ
  last_opened : Option ℚ
  bundle_id : String
  version : String
  bundle_name : Option String
deriving DecidableEq

/-- APP_FOLDER_MAPPING of application_storage_analyzer.py: app name to
(data folder names, cache folder names). -/
def APP_FOLDER_MAPPING : List (String × (List String × List String)) :=
  [("Docker", (["Docker"], ["com.docker.docker"])),
   ("Figma", (["Figma", "figma-desktop"], ["Figma"])),
   ("Postman", (["Postman"], ["Postman"])),
   ("Visual Studio Code", (["Code"], ["Code"])),
   ("Xmind", (["Xmind"], ["Xmind"]))]

/-- Dictionary lookup in APP_FOLDER_MAPPING. -/
def lookupMapping (n : String) : Option (List String × List String) :=
  (APP_FOLDER_MAPPING.find? (fun p => p.1 = n)).map Prod.snd

/-- The shared update step of the last-used heuristics: when the folder
exists and its stat succeeds, its modification time replaces the current
candidate when there is none yet or the folder is more recent. -/
def updateLast (cur : Option ℚ) (di : Option DirInfo) : Option ℚ :=
  match di with
  | none => cur
  | some info =>
    if info.statOk then
      match cur with
      | none => some info.mtime
      | some t => if info.mtime > t then some info.mtime else some t
    else cur

/-- ChromeAnalyzer.get_data_folders. -/
def chrome_data_folders : List String := ["Google/Chrome"]

/-- ChromeAnalyzer.get_cache_folders. -/
def chrome_cache_folders : List String :=
  ["Google", "com.google.GoogleUpdater", "com.google.Keystone",
   "com.google.SoftwareUpdate"]

/-- ChromeAnalyzer.analyze_data_size: sum the sizes of the data folders
that exist under Application Support. -/
def chrome_analyze_data_size (env : Env) : Nat :=
  (chrome_data_folders.map (fun f =>
    match env.appSupport f with
    | some di => get_directory_size di.children
    | none => 0)).sum

/-- ChromeAnalyzer.analyze_cache_size: likewise under Caches. -/
def chrome_analyze_cache_size (env : Env) : Nat :=
  (chrome_cache_folders.map (fun f =>
    match env.caches f with
    | some di => get_directory_size di.children
    | none => 0)).sum

/-- ChromeAnalyzer.get_last_used: latest modification time over the data
folders then the cache folders that exist and stat successfully. -/
def chrome_get_last_used (env : Env) : Option ℚ :=
  let l1 := chrome_data_folders.foldl
    (fun c f => updateLast c (env.appSupport f)) none
  chrome_cache_folders.foldl (fun c f => updateLast c (env.caches f)) l1

/-- get_app_last_opened: start from the mdls metadata date, then fold the
modification times of the data/cache folders to check (from the mapping
when the app has one, else the app's own name under both roots). -/
def get_app_last_opened (env : Env) (stem : String) : Option ℚ :=
  match lookupMapping stem with
  | some (ds, cs) =>
    let l1 := ds.foldl (fun c f => updateLast c (env.appSupport f)) env.mdlsDate
    cs.foldl (fun c f => updateLast c (env.caches f)) l1
  | none =>
    updateLast (updateLast env.mdlsDate (env.appSupport stem)) (env.caches stem)

/-- analyze_application of application_storage_analyzer.py.  None when the
path is missing, not a directory, or its stat raises.  Otherwise the
bundle size is the recursive size of its contents; data/cache sizes come
from the Chrome analyzer, the folder mapping, or the default folders
named after the app; last_opened is the heuristic date, overridden by the
Chrome analyzer's date when that branch runs and finds one. -/
def analyze_application (env : Env) (app : AppPath) : Option AppInfo :=
  if app.present then
    if app.statOk then
      let size := get_directory_size app.children
      let baseLast := get_app_last_opened env app.stem
      let dcl :=
        if app.stem = "Google Chrome" ∧ env.hasChrome then
          let cl := chrome_get_last_used env
          (chrome_analyze_data_size env, chrome_analyze_cache_size env,
            match cl with
            | some t => some t
            | none => baseLast)
        else
          match lookupMapping app.stem with
          | some (ds, cs) =>
            ((ds.map (fun f =>
                match env.appSupport f with
                | some di => get_directory_size di.children
                | none => 0)).sum,
             (cs.map (fun f =>
                match env.caches f with
                | some di => get_directory_size di.children
                | none => 0)).sum,
             baseLast)
          | none =>
            ((match env.appSupport app.stem with
              | some di => get_directory_size di.children
              | none => 0),
             (match env.caches app.stem with
              | some di => get_directory_size di.children
              | none => 0),
             baseLast)
      some { name := app.stem, size := size,
             data_size := dcl.1, cache_size := dcl.2.1,
             created := app.birthtime, modified := app.mtime,
             last_opened := dcl.2.2,
             bundle_id := (app.plist.map PlistInfo.bundle_id).getD "Unknown",
             version := (app.plist.map PlistInfo.version).getD "Unknown",
             bundle_name := app.plist.map PlistInfo.bundle_name }
    else none
  else none

/-- The loop of analyze_applications_folder: keep, in order, the analysis
of every entry whose suffix is the app-bundle suffix, when the analysis
succeeds and reports a nonzero bundle size. -/
def scanApps (env : Env) : List AppPath → List AppInfo
  | [] => []
  | it :: rest =>
    if it.suffix = ".app" then
      match analyze_application env it with
      | some info =>
        (if info.size > 0 then [info] else []) ++ scanApps env rest
      | none => scanApps env rest
    else scanApps env rest

/-- analyze_applications_folder: an empty inventory when the folder is
missing, else the filtered per-bundle analyses. -/
def analyze_applications_folder (env : Env) (folderPresent : Bool)
    (entries : List AppPath) : List AppInfo :=
  if folderPresent then scanApps env entries else []

/-!
## Walk lemmas
-/

theorem foldl_total (its : List Item) : ∀ s : LoopState,
    (its.foldl processItem s).stats.total_size
      = s.stats.total_size + (its.map countedSize).sum := by
  induction its with
  | nil => intro s; simp
  | cons i rest ih =>
    intro s
    rw [List.foldl_cons, ih, List.map_cons, List.sum_cons]
    rcases i with ⟨p, n, info⟩
    cases info with
    | file d =>
      cases hd : d.statOk <;> simp [processItem, countedSize, hd] <;> omega
    | dir ok => cases ok <;> simp [processItem, countedSize]
    | special => simp [processItem, countedSize]

theorem foldl_file_count (its : List Item) : ∀ s : LoopState,
    (its.foldl processItem s).stats.file_count
      = s.stats.file_count + its.countP isCountedFile := by
  induction its with
  | nil => intro s; simp
  | cons i rest ih =>
    intro s
    rw [List.foldl_cons, ih, List.countP_cons]
    rcases i with ⟨p, n, info⟩
    cases info with
    | file d =>
      cases hd : d.statOk <;> simp [processItem, isCountedFile, hd] <;> omega
    | dir ok => cases ok <;> simp [processItem, isCountedFile]
    | special => simp [processItem, isCountedFile]

theorem foldl_folder_count (its : List Item) : ∀ s : LoopState,
    (its.foldl processItem s).stats.folder_count
      = s.stats.folder_count + its.countP isCountedDir := by
  induction its with
  | nil => intro s; simp
  | cons i rest ih =>
    intro s
    rw [List.foldl_cons, ih, List.countP_cons]
    rcases i with ⟨p, n, info⟩
    cases info with
    | file d =>
      cases hd : d.statOk <;> simp [processItem, isCountedDir, hd]
    | dir ok => cases ok <;> simp [processItem, isCountedDir] <;> omega
    | special => simp [processItem, isCountedDir]

theorem foldl_age_total (its : List Item) : ∀ s : LoopState,
    (its.foldl processItem s).stats.age_distribution.total
      = s.stats.age_distribution.total + its.countP isCountedFile := by
  induction its with
  | nil => intro s; simp
  | cons i rest ih =>
    intro s
    rw [List.foldl_cons, ih, List.countP_cons]
    rcases i with ⟨p, n, info⟩
    cases info with
    | file d =>
      cases hd : d.statOk
      · simp [processItem, isCountedFile, hd]
      · simp only [processItem, isCountedFile, hd, if_true]
        have : ∀ (a : ℚ) (x : AgeDist),
            (AgeDist.bump a x).total = x.total + 1 := by
          intro a x
          unfold AgeDist.bump AgeDist.total
          split_ifs <;> simp <;> omega
        simp [this]
        omega
    | dir ok => cases ok <;> simp [processItem, isCountedFile]
    | special => simp [processItem, isCountedFile]

/-!
## C1: stat-failed entries are excluded from every aggregate
-/

/-- C1: over any walk, total_size is the sum of the sizes of the file
entries whose stat succeeded; file_count counts exactly those entries;
counted plus stat-denied file entries account for all file entries the
iterator yielded; and an entry whose stat raises leaves the whole
accumulator untouched, so it is counted in no aggregate. -/
theorem claim_C1 (startNow : ℚ) (its : List Item) :
    (analyzeItems startNow its).stats.total_size = (its.map countedSize).sum
  ∧ (analyzeItems startNow its).stats.file_count = its.countP isCountedFile
  ∧ its.countP isCountedFile + its.countP isDeniedFile = its.countP isFileItem
  ∧ ∀ (s : LoopState) (i : Item), processItem s (markDenied i) = s := by
  refine ⟨?_, ?_, ?_, ?_⟩
  · simpa [initState, initStats] using foldl_total its (initState startNow)
  · simpa [initState, initStats] using foldl_file_count its (initState startNow)
  · induction its with
    | nil => simp
    | cons i rest ih =>
      rw [List.countP_cons, List.countP_cons, List.countP_cons]
      rcases i with ⟨p, n, info⟩
      cases info with
      | file d =>
        cases hd : d.statOk <;>
          simp [isCountedFile, isDeniedFile, isFileItem, hd] <;> omega
      | dir ok => simpa [isCountedFile, isDeniedFile, isFileItem] using ih
      | special => simpa [isCountedFile, isDeniedFile, isFileItem] using ih
  · intro s i
    rcases i with ⟨p, n, info⟩
    cases info <;> simp [markDenied, processItem]

/-!
## C2: age buckets
-/

/-- C2: the five age-bucket counts always sum to file_count; the bucket
chosen for a given age has inclusive upper boundaries (at most 7 days in
the first bucket, then 30, 90, 365, everything beyond 365 in the last);
and each counted file is bucketed by the age computed from the wall clock
read when that file was examined (get_file_age_days of its own data). -/
theorem claim_C2 (startNow : ℚ) (its : List Item) (a : ℚ) (x : AgeDist)
    (s : LoopState) (p : List String) (n : String) (d : FileData) :
    (analyzeItems startNow its).stats.age_distribution.total
      = (analyzeItems startNow its).stats.file_count
  ∧ (AgeDist.bump a x).b0_7 = x.b0_7 + (if a ≤ 7 then 1 else 0)
  ∧ (AgeDist.bump a x).b7_30 = x.b7_30 + (if 7 < a ∧ a ≤ 30 then 1 else 0)
  ∧ (AgeDist.bump a x).b30_90 = x.b30_90 + (if 30 < a ∧ a ≤ 90 then 1 else 0)
  ∧ (AgeDist.bump a x).b90_365 = x.b90_365 + (if 90 < a ∧ a ≤ 365 then 1 else 0)
  ∧ (AgeDist.bump a x).b1y = x.b1y + (if 365 < a then 1 else 0)
  ∧ (processItem s ⟨p, n, .file d⟩).stats.age_distribution
      = (if d.statOk then
          AgeDist.bump (get_file_age_days d) s.stats.age_distribution
         else s.stats.age_distribution) := by
  refine ⟨?_, ?_, ?_, ?_, ?_, ?_, ?_⟩
  · simp only [analyzeItems]
    rw [foldl_age_total its (initState startNow),
        foldl_file_count its (initState startNow)]
    rfl
  · unfold AgeDist.bump; split_ifs <;> simp_all <;> linarith
  · unfold AgeDist.bump; split_ifs <;> simp_all <;> linarith
  · unfold AgeDist.bump; split_ifs <;> simp_all <;> linarith
  · unfold AgeDist.bump; split_ifs <;> simp_all <;> linarith
  · unfold AgeDist.bump; split_ifs <;> simp_all <;> linarith
  · cases hd : d.statOk <;> simp [processItem, hd]

/-!
## C9: a counted file whose getmtime fails lands in the first age bucket
-/

/-- C9: when the stat in the main loop succeeds but the separate getmtime
inside get_file_age_days raises, the age is reported as 0 days and the
file is still counted, landing in the first (0-7 days) bucket. -/
theorem claim_C9 (sz : Nat) (mt nw startNow : ℚ) (p : List String) (n : String) :
    get_file_age_days ⟨sz, mt, nw, true, false⟩ = 0
  ∧ (analyzeItems startNow
        [⟨p, n, .file ⟨sz, mt, nw, true, false⟩⟩]).stats.age_distribution
      = ⟨1, 0, 0, 0, 0⟩
  ∧ (analyzeItems startNow
        [⟨p, n, .file ⟨sz, mt, nw, true, false⟩⟩]).stats.file_count = 1 := by
  refine ⟨rfl, ?_, ?_⟩
  · simp [analyzeItems, processItem, initState, initStats, get_file_age_days,
      AgeDist.bump]
  · simp [analyzeItems, processItem, initState, initStats]

/-!
## C10: the three trackers can stay absent even with counted files
-/

theorem fold_largest_invariant (its : List Item) : ∀ s : LoopState,
    s.largest_size = 0 → s.stats.largest_file = none →
    (∀ i ∈ its, isCountedFile i = true → countedSize i = 0) →
    (its.foldl processItem s).largest_size = 0
  ∧ (its.foldl processItem s).stats.largest_file = none := by
  induction its with
  | nil => intro s h1 h2 _; exact ⟨h1, h2⟩
  | cons i rest ih =>
    intro s h1 h2 hall
    rw [List.foldl_cons]
    refine ih _ ?_ ?_ (fun j hj => hall j (List.mem_cons_of_mem i hj))
    all_goals
      rcases i with ⟨p, n, info⟩
      cases info with
      | file d =>
        cases hd : d.statOk
        · simp [processItem, hd, h1, h2]
        · have hz : d.size = 0 := by
            have := hall ⟨p, n, .file d⟩ (List.mem_cons_self _ _)
            simpa [isCountedFile, countedSize, hd] using this
          simp [processItem, hd, h1, h2, hz]
      | dir ok => cases ok <;> simp [processItem, h1, h2]
      | special => simp [processItem, h1, h2]

theorem fold_newest_invariant (its : List Item) : ∀ s : LoopState,
    s.newest_time = 0 → s.stats.newest_file = none →
    (∀ i ∈ its, isCountedFile i = true → itemMtime i ≤ 0) →
    (its.foldl processItem s).newest_time = 0
  ∧ (its.foldl processItem s).stats.newest_file = none := by
  induction its with
  | nil => intro s h1 h2 _; exact ⟨h1, h2⟩
  | cons i rest ih =>
    intro s h1 h2 hall
    rw [List.foldl_cons]
    refine ih _ ?_ ?_ (fun j hj => hall j (List.mem_cons_of_mem i hj))
    all_goals
      rcases i with ⟨p, n, info⟩
      cases info with
      | file d =>
        cases hd : d.statOk
        · simp [processItem, hd, h1, h2]
        · have hz : d.mtime ≤ 0 := by
            have := hall ⟨p, n, .file d⟩ (List.mem_cons_self _ _)
            simpa [isCountedFile, itemMtime, hd] using this
          simp [processItem, hd, h1, h2, not_lt.mpr hz]
      | dir ok => cases ok <;> simp [processItem, h1, h2]
      | special => simp [processItem, h1, h2]

theorem fold_oldest_invariant (t : ℚ) (its : List Item) : ∀ s : LoopState,
    s.oldest_time = t → s.stats.oldest_file = none →
    (∀ i ∈ its, isCountedFile i = true → t ≤ itemMtime i) →
    (its.foldl processItem s).oldest_time = t
  ∧ (its.foldl processItem s).stats.oldest_file = none := by
  induction its with
  | nil => intro s h1 h2 _; exact ⟨h1, h2⟩
  | cons i rest ih =>
    intro s h1 h2 hall
    rw [List.foldl_cons]
    refine ih _ ?_ ?_ (fun j hj => hall j (List.mem_cons_of_mem i hj))
    all_goals
      rcases i with ⟨p, n, info⟩
      cases info with
      | file d =>
        cases hd : d.statOk
        · simp [processItem, hd, h1, h2]
        · have hz : t ≤ d.mtime := by
            have := hall ⟨p, n, .file d⟩ (List.mem_cons_self _ _)
            simpa [isCountedFile, itemMtime, hd] using this
          simp [processItem, hd, h1, h2, not_lt.mpr hz]
      | dir ok => cases ok <;> simp [processItem, h1, h2]
      | special => simp [processItem, h1, h2]

/-- C10: the trackers start from the walk-start wall clock, zero and zero,
and only strict improvements record a file, so largest_file stays absent
when every counted file has size 0, newest_file stays absent when every
counted file's modification time is at most 0, and oldest_file stays
absent when every counted file's modification time is at or after the
walk-start timestamp, regardless of file_count. -/
theorem claim_C10 (startNow : ℚ) (its : List Item) :
    ((∀ i ∈ its, isCountedFile i = true → countedSize i = 0) →
      (analyzeItems startNow its).stats.largest_file = none)
  ∧ ((∀ i ∈ its, isCountedFile i = true → itemMtime i ≤ 0) →
      (analyzeItems startNow its).stats.newest_file = none)
  ∧ ((∀ i ∈ its, isCountedFile i = true → startNow ≤ itemMtime i) →
      (analyzeItems startNow its).stats.oldest_file = none) := by
  refine ⟨fun h => ?_, fun h => ?_, fun h => ?_⟩
  · exact (fold_largest_invariant its (initState startNow) rfl rfl h).2
  · exact (fold_newest_invariant its (initState startNow) rfl rfl h).2
  · exact (fold_oldest_invariant startNow its (initState startNow) rfl rfl h).2

/-- Witness for C10: a walk that counts one file of size 0 with
modification time equal to both 0 and the walk-start clock leaves all
three trackers absent while file_count is positive. -/
theorem claim_C10_witness :
    0 < (analyzeItems 0 [⟨["f"], "f", .file ⟨0, 0, 0, true, true⟩⟩]).stats.file_count
  ∧ (analyzeItems 0 [⟨["f"], "f", .file ⟨0, 0, 0, true, true⟩⟩]).stats.largest_file = none
  ∧ (analyzeItems 0 [⟨["f"], "f", .file ⟨0, 0, 0, true, true⟩⟩]).stats.newest_file = none
  ∧ (analyzeItems 0 [⟨["f"], "f", .file ⟨0, 0, 0, true, true⟩⟩]).stats.oldest_file = none := by
  have h := claim_C10 0 [⟨["f"], "f", .file ⟨0, 0, 0, true, true⟩⟩]
  refine ⟨?_, h.1 ?_, h.2.1 ?_, h.2.2 ?_⟩
  · simp [analyzeItems, processItem, initState, initStats]
  all_goals
    intro i hi _
    simp only [List.mem_singleton] at hi
    subst hi
    simp [countedSize, itemMtime]

/-!
## C4: symlinks are not skipped; they are resolved
-/

/-- C4 as stated is false: the aggregator has no symlink check and pathlib
resolves symlinks, so a symlink to a 5-byte regular file is counted in
file_count and contributes its target's size, and a symlink to a
directory is counted in folder_count. -/
theorem claim_C4_counterexample :
    (analyzeItems 0 ((FSNode.linkFile "payload" ⟨5, 0, 0, true, true⟩).items [])).stats.file_count = 1
  ∧ (analyzeItems 0 ((FSNode.linkFile "payload" ⟨5, 0, 0, true, true⟩).items [])).stats.total_size = 5
  ∧ (analyzeItems 0 ((FSNode.linkDir "ld" true []).items [])).stats.folder_count = 1 := by
  refine ⟨?_, ?_, ?_⟩ <;>
    simp [FSNode.items, analyzeItems, processItem, initState, initStats,
      get_file_age_days, AgeDist.bump]

/-- C4 amended: a symlink is classified by its resolved target — one whose
target is a regular file is counted as a file (when its stat succeeds) and
contributes its target's size, one whose target is a directory increments
folder_count only, and an entry that is neither file nor directory is
skipped; a true directory entry increments folder_count only and
contributes nothing itself to total_size (its contents are walked
separately). -/
theorem claim_C4 (startNow : ℚ) (pre : List String) (n : String)
    (d : FileData) (ok : Bool) (t cs : List FSNode) :
    ((analyzeItems startNow ((FSNode.linkFile n d).items pre)).stats.file_count
        = if d.statOk then 1 else 0)
  ∧ ((analyzeItems startNow ((FSNode.linkFile n d).items pre)).stats.total_size
        = if d.statOk then d.size else 0)
  ∧ (analyzeItems startNow ((FSNode.linkFile n d).items pre)).stats.folder_count = 0
  ∧ ((analyzeItems startNow ((FSNode.linkDir n ok t).items pre)).stats.folder_count
        = if ok then 1 else 0)
  ∧ (analyzeItems startNow ((FSNode.linkDir n ok t).items pre)).stats.file_count = 0
  ∧ (analyzeItems startNow ((FSNode.linkDir n ok t).items pre)).stats.total_size = 0
  ∧ (analyzeItems startNow ((FSNode.special n).items pre)).stats.file_count = 0
  ∧ (analyzeItems startNow ((FSNode.special n).items pre)).stats.folder_count = 0
  ∧ (analyzeItems startNow ((FSNode.special n).items pre)).stats.total_size = 0
  ∧ ((analyzeItems startNow ((FSNode.dir n ok cs).items pre)).stats.total_size
        = (analyzeItems startNow (FSNode.itemsList (pre ++ [n]) cs)).stats.total_size)
  ∧ ((analyzeItems startNow ((FSNode.dir n ok cs).items pre)).stats.folder_count
        = (if ok then 1 else 0)
          + (analyzeItems startNow (FSNode.itemsList (pre ++ [n]) cs)).stats.folder_count) := by
  simp only [analyzeItems, FSNode.items]
  refine ⟨?_, ?_, ?_, ?_, ?_, ?_, ?_, ?_, ?_, ?_, ?_⟩
  · rw [foldl_file_count]; cases hd : d.statOk <;> simp [isCountedFile, hd, initState, initStats]
  · rw [foldl_total]; cases hd : d.statOk <;> simp [countedSize, hd, initState, initStats]
  · rw [foldl_folder_count]; simp [isCountedDir, initState, initStats]
  · rw [foldl_folder_count]; cases ok <;> simp [isCountedDir, initState, initStats]
  · rw [foldl_file_count]; simp [isCountedFile, initState, initStats]
  · rw [foldl_total]; simp [countedSize, initState, initStats]
  · rw [foldl_file_count]; simp [isCountedFile, initState, initStats]
  · rw [foldl_folder_count]; simp [isCountedDir, initState, initStats]
  · rw [foldl_total]; simp [countedSize, initState, initStats]
  · rw [foldl_total, foldl_total]
    simp [countedSize, initState, initStats]
  · rw [foldl_folder_count, foldl_folder_count]
    rw [List.countP_cons]
    cases ok <;> simp [isCountedDir, initState, initStats] <;> omega

/-!
## C3: missing root vs empty directory
-/

/-- C3: a nonexistent root yields the None sentinel without an exception;
an existing empty directory yields a stats object whose size and counts
are zero and whose oldest/newest/largest trackers are all absent; and the
two results are distinct. -/
theorem claim_C3 (walkOk recursive show_sub : Bool) (startNow : ℚ)
    (pre : List String) (cs : List FSNode) (N : Nat) :
    analyze_directory false walkOk startNow pre cs recursive show_sub N = none
  ∧ (∃ s, analyze_directory true true startNow pre [] recursive show_sub N = some s
      ∧ s.total_size = 0 ∧ s.file_count = 0 ∧ s.folder_count = 0
      ∧ s.oldest_file = none ∧ s.newest_file = none ∧ s.largest_file = none)
  ∧ analyze_directory false walkOk startNow pre cs recursive show_sub N
      ≠ analyze_directory true true startNow pre [] recursive show_sub N := by
  refine ⟨by simp [analyze_directory], ⟨initStats, ?_, rfl, rfl, rfl, rfl, rfl, rfl⟩, ?_⟩
  · cases recursive <;> cases show_sub <;>
      first
      | rfl
      | (simp only [analyze_directory, topSubfolders, subfolderScan,
            sortDescBySize, List.mergeSort_nil, List.take_nil, if_true]
         rfl)
  · cases recursive <;> cases show_sub <;> simp [analyze_directory] <;>
      exact fun h => Option.noConfusion h

/-!
## C8: determinism and dependence on the wall clock
-/

theorem selfItem_erase (pre : List String) (c : FSNode) :
    (eraseClockNode c).selfItem pre = eraseClockItem (c.selfItem pre) := by
  cases c <;> simp [eraseClockNode, FSNode.selfItem, eraseClockItem]

mutual

theorem items_eraseNode (pre : List String) (c : FSNode) :
    (eraseClockNode c).items pre = (c.items pre).map eraseClockItem := by
  match c with
  | .file n d => simp [eraseClockNode, FSNode.items, eraseClockItem]
  | .linkFile n d => simp [eraseClockNode, FSNode.items, eraseClockItem]
  | .dir n ok cs =>
    simp [eraseClockNode, FSNode.items, eraseClockItem,
      items_eraseList (pre ++ [n]) cs]
  | .linkDir n ok t => simp [eraseClockNode, FSNode.items, eraseClockItem]
  | .special n => simp [eraseClockNode, FSNode.items, eraseClockItem]

theorem items_eraseList (pre : List String) (cs : List FSNode) :
    FSNode.itemsList pre (eraseClockForest cs)
      = (FSNode.itemsList pre cs).map eraseClockItem := by
  match cs with
  | [] => simp [eraseClockForest, FSNode.itemsList]
  | c :: rest =>
    simp [eraseClockForest, FSNode.itemsList, items_eraseNode pre c,
      items_eraseList pre rest]

end

theorem shallow_erase (pre : List String) (cs : List FSNode) :
    shallowItems pre (eraseClockForest cs)
      = (shallowItems pre cs).map eraseClockItem := by
  induction cs with
  | nil => simp [eraseClockForest, shallowItems]
  | cons c rest ih =>
    simp [eraseClockForest, shallowItems, selfItem_erase, ih]

theorem countedSize_erase (i : Item) :
    countedSize (eraseClockItem i) = countedSize i := by
  rcases i with ⟨p, n, info⟩
  cases info <;> simp [countedSize, eraseClockItem, eraseClockData]

theorem gds_erase (cs : List FSNode) :
    get_directory_size (eraseClockForest cs) = get_directory_size cs := by
  unfold get_directory_size
  rw [items_eraseList, List.map_map]
  have h : countedSize ∘ eraseClockItem = countedSize := funext countedSize_erase
  rw [h]

theorem subfolderScan_erase (pre : List String) (cs : List FSNode) :
    ∀ acc, subfolderScan pre (eraseClockForest cs) acc = subfolderScan pre cs acc := by
  induction cs with
  | nil => intro acc; rfl
  | cons c rest ih =>
    intro acc
    have hok : (eraseClockNode c).childStatOk = c.childStatOk := by
      cases c <;> simp [eraseClockNode, FSNode.childStatOk, eraseClockData]
    have hdir : (eraseClockNode c).isDirEntry = c.isDirEntry := by
      cases c <;> simp [eraseClockNode, FSNode.isDirEntry]
    have hname : (eraseClockNode c).nameOf = c.nameOf := by
      cases c <;> simp [eraseClockNode, FSNode.nameOf]
    have hsz : get_directory_size (eraseClockNode c).sizedContents
        = get_directory_size c.sizedContents := by
      cases c <;> simp [eraseClockNode, FSNode.sizedContents, gds_erase]
    show subfolderScan pre (eraseClockNode c :: eraseClockForest rest) acc = _
    simp only [subfolderScan, hok, hdir, hname, hsz]
    split_ifs <;> first | rfl | apply ih

theorem topSubfolders_erase (pre : List String) (cs : List FSNode) (N : Nat) :
    topSubfolders pre (eraseClockForest cs) N = topSubfolders pre cs N := by
  unfold topSubfolders
  rw [subfolderScan_erase]

theorem fold_cfView (its : List Item) : ∀ s1 s2 : LoopState,
    s1.cfView = s2.cfView →
    (its.foldl processItem s1).cfView
      = ((its.map eraseClockItem).foldl processItem s2).cfView := by
  induction its with
  | nil => intro s1 s2 h; simpa using h
  | cons i rest ih =>
    intro s1 s2 h
    simp only [LoopState.cfView, Prod.mk.injEq] at h
    obtain ⟨h1, h2, h3, h4, h5, h6, h7, h8, h9⟩ := h
    rw [List.map_cons, List.foldl_cons, List.foldl_cons]
    refine ih _ _ ?_
    rcases i with ⟨p, n, info⟩
    cases info with
    | file d =>
      cases hd : d.statOk
      · simp [processItem, eraseClockItem, eraseClockData, hd,
          LoopState.cfView, h1, h2, h3, h4, h5, h6, h7, h8, h9]
      · simp only [processItem, eraseClockItem, eraseClockData, hd,
          if_true, LoopState.cfView, Prod.mk.injEq]
        rw [h8] at *
        rw [h9] at *
        refine ⟨by omega, by omega, h3, ?_, ?_, by rw [h6], h7, ?_, ?_⟩ <;>
          split <;> simp [h4, h5]
    | dir ok =>
      cases ok <;>
        simp [processItem, eraseClockItem, LoopState.cfView,
          h1, h2, h3, h4, h5, h6, h7, h8, h9]
    | special =>
      simp [processItem, eraseClockItem, LoopState.cfView,
        h1, h2, h3, h4, h5, h6, h7, h8, h9]

theorem analyzeItems_cfView (n : ℚ) (its : List Item) :
    (analyzeItems n its).cfView
      = (analyzeItems 0 (its.map eraseClockItem)).cfView := by
  exact fold_cfView its (initState n) (initState 0)
    (by simp [initState, LoopState.cfView, initStats])

/-- C8 as stated is false: the same on-disk tree (an unmodified one-file
directory, witnessed by equal clock erasures) analyzed at wall-clock
time 604800 seconds (the file is then exactly 7 days old) and one second
later lands the file in different age buckets, so the two DirectoryStats
are not bit-identical. -/
theorem claim_C8_counterexample :
    eraseClockForest [FSNode.file "a" ⟨1, 0, 604800, true, true⟩]
      = eraseClockForest [FSNode.file "a" ⟨1, 0, 604801, true, true⟩]
  ∧ Option.map Stats.age_distribution
      (analyze_directory true true 604800 []
        [FSNode.file "a" ⟨1, 0, 604800, true, true⟩] true false 30)
    ≠ Option.map Stats.age_distribution
      (analyze_directory true true 604801 []
        [FSNode.file "a" ⟨1, 0, 604801, true, true⟩] true false 30) := by
  constructor
  · rfl
  · have e1 : (604800 : ℚ) / (60 * 60 * 24) ≤ 7 := by norm_num
    have e2 : ¬ (604801 : ℚ) / (60 * 60 * 24) ≤ 7 := by norm_num
    have e3 : (604801 : ℚ) / (60 * 60 * 24) ≤ 30 := by norm_num
    simp [analyze_directory, analyzeItems, processItem, initState, initStats,
      FSNode.itemsList, FSNode.items, get_file_age_days, AgeDist.bump,
      e1, e2, e3]

/-- C8 amended: the aggregator is a deterministic function of the tree and
the wall-clock readings, so two runs that read identical clocks produce
bit-identical DirectoryStats; when only the clock differs between the
runs (the tree unmodified, equal clock erasures), every clock-independent
field — total_size, file_count, folder_count, newest_file, largest_file,
the extension buckets and the subfolder list — is still identical, while
the age buckets and oldest_file may change. -/
theorem claim_C8 (pe wo rec sf : Bool) (n1 n2 : ℚ) (pre : List String)
    (f g : List FSNode) (N : Nat) :
    (f = g → n1 = n2 →
      analyze_directory pe wo n1 pre f rec sf N
        = analyze_directory pe wo n2 pre g rec sf N)
  ∧ (eraseClockForest f = eraseClockForest g →
      Option.map Stats.clockFree (analyze_directory pe wo n1 pre f rec sf N)
        = Option.map Stats.clockFree (analyze_directory pe wo n2 pre g rec sf N)) := by
  constructor
  · rintro rfl rfl; rfl
  · intro hfg
    cases pe
    · simp [analyze_directory]
    cases wo
    · simp [analyze_directory]
    have hview : (analyzeItems n1 (if rec = true then FSNode.itemsList pre f
          else shallowItems pre f)).cfView
        = (analyzeItems n2 (if rec = true then FSNode.itemsList pre g
          else shallowItems pre g)).cfView := by
      cases rec
      · rw [if_neg (by simp), if_neg (by simp)]
        rw [analyzeItems_cfView n1, analyzeItems_cfView n2,
          ← shallow_erase, ← shallow_erase, hfg]
      · rw [if_pos rfl, if_pos rfl]
        rw [analyzeItems_cfView n1, analyzeItems_cfView n2,
          ← items_eraseList, ← items_eraseList, hfg]
    have htop : topSubfolders pre f N = topSubfolders pre g N := by
      rw [← topSubfolders_erase pre f, ← topSubfolders_erase pre g, hfg]
    simp only [LoopState.cfView, Prod.mk.injEq] at hview
    obtain ⟨h1, h2, h3, h4, h5, h6, h7, h8, h9⟩ := hview
    cases sf <;>
      simp [analyze_directory, Stats.clockFree, h1, h2, h3, h4, h5, h6, h7, htop]

/-- Witness for C8: the clock-independent fields agree across the two
runs of the counterexample tree, and a run compared with itself is
identical outright. -/
theorem claim_C8_witness :
    Option.map Stats.clockFree
      (analyze_directory true true 604800 []
        [FSNode.file "a" ⟨1, 0, 604800, true, true⟩] true false 30)
      = Option.map Stats.clockFree
        (analyze_directory true true 604801 []
          [FSNode.file "a" ⟨1, 0, 604801, true, true⟩] true false 30)
  ∧ analyze_directory true true 5 [] [] true true 3
      = analyze_directory true true 5 [] [] true true 3 :=
  ⟨(claim_C8 true true true false 604800 604801 []
      [FSNode.file "a" ⟨1, 0, 604800, true, true⟩]
      [FSNode.file "a" ⟨1, 0, 604801, true, true⟩] 30).2 rfl,
   (claim_C8 true true true true 5 5 [] [] [] 3).1 rfl rfl⟩

/-!
## C5: the top-N subfolder list
-/

theorem dictInsert_notMem (d : List (List String × Nat)) (k : List String)
    (v : Nat) (h : k ∉ d.map Prod.fst) : dictInsert d k v = d ++ [(k, v)] := by
  unfold dictInsert
  rw [if_neg]
  intro hany
  rw [List.any_eq_true] at hany
  obtain ⟨kv, hkv, hk⟩ := hany
  have hk1 : kv.1 = k := of_decide_eq_true hk
  exact h (hk1 ▸ List.mem_map_of_mem Prod.fst hkv)

theorem subfolderScan_complete (pre : List String) :
    ∀ (cs : List FSNode) (acc : List (List String × Nat)),
    (∀ c ∈ cs, c.childStatOk = true) →
    (∀ c ∈ cs, (pre ++ [c.nameOf]) ∉ acc.map Prod.fst) →
    (cs.map FSNode.nameOf).Nodup →
    subfolderScan pre cs acc = acc ++ dirEntries pre cs := by
  intro cs
  induction cs with
  | nil => intro acc _ _ _; simp [subfolderScan, dirEntries]
  | cons c rest ih =>
    intro acc hok hkey hnd
    have hc : c.childStatOk = true := hok c (List.mem_cons_self _ _)
    rw [subfolderScan, if_pos hc]
    have hokr : ∀ x ∈ rest, x.childStatOk = true :=
      fun x hx => hok x (List.mem_cons_of_mem c hx)
    have hndr : (rest.map FSNode.nameOf).Nodup := (List.nodup_cons.mp hnd).2
    cases hdir : c.isDirEntry with
    | false =>
      rw [if_neg (by simp [hdir])]
      rw [dirEntries, if_neg (by simp [hdir]), List.nil_append]
      exact ih acc hokr (fun x hx => hkey x (List.mem_cons_of_mem c hx)) hndr
    | true =>
      rw [if_pos (by simp [hdir])]
      show subfolderScan pre rest
        (if get_directory_size c.sizedContents > 0 then
          dictInsert acc (pre ++ [c.nameOf]) (get_directory_size c.sizedContents)
         else acc) = _
      cases hsz : decide (get_directory_size c.sizedContents > 0) with
      | false =>
        have hsz0 : ¬ get_directory_size c.sizedContents > 0 := of_decide_eq_false hsz
        rw [if_neg hsz0]
        rw [dirEntries, if_neg (by exact fun h => hsz0 h.2), List.nil_append]
        exact ih acc hokr (fun x hx => hkey x (List.mem_cons_of_mem c hx)) hndr
      | true =>
        have hszp : get_directory_size c.sizedContents > 0 := of_decide_eq_true hsz
        rw [if_pos hszp]
        rw [dictInsert_notMem acc _ _ (hkey c (List.mem_cons_self _ _))]
        rw [dirEntries, if_pos ⟨hdir, hszp⟩]
        rw [ih (acc ++ [(pre ++ [c.nameOf], get_directory_size c.sizedContents)])
            hokr ?_ hndr]
        · simp
        · intro x hx
          simp only [List.map_append, List.mem_append, List.map_cons,
            List.map_nil, List.mem_singleton, not_or]
          refine ⟨hkey x (List.mem_cons_of_mem c hx), fun hcontra => ?_⟩
          have hnames : x.nameOf = c.nameOf := by
            have := List.append_cancel_left hcontra
            simpa using this
          exact (List.nodup_cons.mp hnd).1
            (hnames ▸ List.mem_map_of_mem FSNode.nameOf hx)

theorem dirEntries_length (pre : List String) (cs : List FSNode) :
    (dirEntries pre cs).length = cs.countP positiveDirChild := by
  induction cs with
  | nil => simp [dirEntries]
  | cons c rest ih =>
    rw [dirEntries, List.countP_cons]
    by_cases h : c.isDirEntry = true ∧ 0 < get_directory_size c.sizedContents
    · rw [if_pos h]
      have hpdc : positiveDirChild c = true := by
        simp [positiveDirChild, h.1, h.2]
      simp [hpdc, ih]
    · rw [if_neg h]
      have hpdc : positiveDirChild c = false := by
        by_cases h1 : c.isDirEntry = true
        · have h2 : ¬ 0 < get_directory_size c.sizedContents :=
            fun hlt => h ⟨h1, hlt⟩
          simp [positiveDirChild, h2]
        · rw [Bool.not_eq_true] at h1
          simp [positiveDirChild, h1]
      simp [hpdc, ih]

theorem dirEntries_mem (pre : List String) (cs : List FSNode)
    (pr : List String × Nat) (h : pr ∈ dirEntries pre cs) :
    ∃ c ∈ cs, c.isDirEntry = true ∧ pr.1 = pre ++ [c.nameOf]
      ∧ pr.2 = get_directory_size c.sizedContents ∧ 0 < pr.2 := by
  induction cs with
  | nil => simp [dirEntries] at h
  | cons c rest ih =>
    rw [dirEntries] at h
    rcases List.mem_append.mp h with h1 | h1
    · by_cases hc : c.isDirEntry = true ∧ 0 < get_directory_size c.sizedContents
      · rw [if_pos hc] at h1
        simp only [List.mem_singleton] at h1
        subst h1
        exact ⟨c, List.mem_cons_self _ _, hc.1, rfl, rfl, hc.2⟩
      · rw [if_neg hc] at h1
        simp at h1
    · obtain ⟨x, hx, hrest⟩ := ih h1
      exact ⟨x, List.mem_cons_of_mem c hx, hrest⟩

theorem sortDesc_sorted (l : List (List String × Nat)) :
    sizesDesc (sortDescBySize l) := by
  have h := @List.sorted_mergeSort (List String × Nat)
    (fun a b => decide (b.2 ≤ a.2))
    (fun a b c hab hbc => by
      simp only [decide_eq_true_eq] at *
      omega)
    (fun a b => by
      simp only [Bool.or_eq_true, decide_eq_true_eq]
      omega)
    l
  exact h.imp (fun hab => of_decide_eq_true hab)

/-- C5 as stated is false on two points: equal-size subfolders are kept in
insertion order (the list need not be STRICTLY descending), and a child
whose stat raises aborts the scan early (is_dir is called outside the
inner try), so the list can be shorter than min(N, number of positive-size
subdirectories). -/
theorem claim_C5_counterexample :
    topSubfolders []
      [FSNode.dir "a" true [FSNode.file "f" ⟨5, 0, 0, true, true⟩],
       FSNode.dir "b" true [FSNode.file "g" ⟨5, 0, 0, true, true⟩]] 30
      = [(["a"], 5), (["b"], 5)]
  ∧ ¬ sizesStrictDesc [(["a"], 5), (["b"], 5)]
  ∧ topSubfolders []
      [FSNode.dir "bad" false [],
       FSNode.dir "b" true [FSNode.file "g" ⟨5, 0, 0, true, true⟩]] 30
      = []
  ∧ List.countP positiveDirChild
      [FSNode.dir "bad" false [],
       FSNode.dir "b" true [FSNode.file "g" ⟨5, 0, 0, true, true⟩]] = 1 := by
  refine ⟨?_, ?_, ?_, ?_⟩
  · simp [topSubfolders, subfolderScan, FSNode.childStatOk, FSNode.isDirEntry,
      FSNode.nameOf, FSNode.sizedContents, get_directory_size,
      FSNode.itemsList, FSNode.items, countedSize, dictInsert,
      sortDescBySize, List.mergeSort, List.merge]
  · simp [sizesStrictDesc]
  · simp [topSubfolders, subfolderScan, FSNode.childStatOk,
      sortDescBySize, List.mergeSort]
  · simp [positiveDirChild, FSNode.isDirEntry, FSNode.sizedContents,
      get_directory_size, FSNode.itemsList, FSNode.items, countedSize]

/-- C5 amended: provided every immediate child's stat succeeds (a
stat-denied child aborts the rest of the scan) and the children have
distinct names, the top-N list has length min(N, number of immediate
is_dir children with positive recursive size), is sorted in
non-increasing (not necessarily strictly decreasing) size order, and
each entry is an is_dir child's path paired with its full recursive
size, computed by the separate one-level scan. -/
theorem claim_C5 (pre : List String) (cs : List FSNode) (N : Nat)
    (hok : ∀ c ∈ cs, c.childStatOk = true)
    (hnd : (cs.map FSNode.nameOf).Nodup) :
    (topSubfolders pre cs N).length = min N (cs.countP positiveDirChild)
  ∧ sizesDesc (topSubfolders pre cs N)
  ∧ ∀ pr ∈ topSubfolders pre cs N, ∃ c ∈ cs, c.isDirEntry = true
      ∧ pr.1 = pre ++ [c.nameOf] ∧ pr.2 = get_directory_size c.sizedContents
      ∧ 0 < pr.2 := by
  have hscan : subfolderScan pre cs [] = dirEntries pre cs := by
    simpa using subfolderScan_complete pre cs [] hok (by simp) hnd
  refine ⟨?_, ?_, ?_⟩
  · rw [topSubfolders, hscan, List.length_take, sortDescBySize,
      List.length_mergeSort, dirEntries_length]
  · exact List.Pairwise.sublist (List.take_sublist _ _)
      (sortDesc_sorted (subfolderScan pre cs []))
  · intro pr hpr
    have h1 : pr ∈ sortDescBySize (subfolderScan pre cs []) :=
      (List.take_sublist _ _).mem hpr
    have h2 : pr ∈ dirEntries pre cs := by
      rw [hscan] at h1
      exact List.mem_mergeSort.mp h1
    exact dirEntries_mem pre cs pr h2

/-- Witness for C5: a single accessible subdirectory holding one 5-byte
file yields a one-element, trivially sorted list. -/
theorem claim_C5_witness :
    (topSubfolders [] [FSNode.dir "a" true
        [FSNode.file "f" ⟨5, 0, 0, true, true⟩]] 30).length
      = min 30 (List.countP positiveDirChild
          [FSNode.dir "a" true [FSNode.file "f" ⟨5, 0, 0, true, true⟩]])
  ∧ sizesDesc (topSubfolders [] [FSNode.dir "a" true
      [FSNode.file "f" ⟨5, 0, 0, true, true⟩]] 30) := by
  have h := claim_C5 [] [FSNode.dir "a" true
    [FSNode.file "f" ⟨5, 0, 0, true, true⟩]] 30
    (by intro c hc; simp only [List.mem_singleton] at hc; subst hc; rfl)
    (by simp)
  exact ⟨h.1, h.2.1⟩

/-!
## C6: find_large_files
-/

theorem fileCandidate_toList (minB : ℚ) (pre : List String) (n : String)
    (sz : Nat) (lnk ok : Bool) :
    (fileCandidate minB pre (.file n sz lnk ok)).toList
      = if lnk = false ∧ ok = true ∧ (sz : ℚ) ≥ minB
        then [(pre ++ [n], sz)] else [] := by
  cases lnk <;> cases ok <;> simp [fileCandidate] <;>
    split_ifs <;> simp_all

theorem walkDir_cons_file (excl : List String) (minB : ℚ) (pre : List String)
    (n : String) (sz : Nat) (lnk ok : Bool) (cs : List WTree) :
    walkDir excl minB pre (.file n sz lnk ok :: cs)
      = (fileCandidate minB pre (.file n sz lnk ok)).toList
        ++ walkDir excl minB pre cs := by
  unfold walkDir
  rw [walkSubdirs]
  unfold filesOf
  rw [List.filterMap_cons]
  cases fileCandidate minB pre (.file n sz lnk ok) <;> simp

theorem walkDir_cons_dir (excl : List String) (minB : ℚ) (pre : List String)
    (n : String) (dcs cs : List WTree) :
    walkDir excl minB pre (.dir n dcs :: cs)
      = filesOf minB pre cs
        ++ ((if n ∈ excl then [] else walkDir excl minB (pre ++ [n]) dcs)
            ++ walkSubdirs excl minB pre cs) := by
  conv_lhs => rw [walkDir]
  rw [walkSubdirs]
  unfold filesOf
  rw [List.filterMap_cons]
  simp [fileCandidate]

theorem walkDir_dir_perm (excl : List String) (minB : ℚ) (pre : List String)
    (n : String) (dcs cs : List WTree) :
    (walkDir excl minB pre (.dir n dcs :: cs)).Perm
      ((if n ∈ excl then [] else walkDir excl minB (pre ++ [n]) dcs)
        ++ walkDir excl minB pre cs) := by
  rw [walkDir_cons_dir, ← List.append_assoc]
  have h1 := List.Perm.append_right (walkSubdirs excl minB pre cs)
    (@List.perm_append_comm _ (filesOf minB pre cs)
      (if n ∈ excl then [] else walkDir excl minB (pre ++ [n]) dcs))
  refine h1.trans ?_
  rw [List.append_assoc]
  refine List.Perm.append_left _ ?_
  rw [walkDir]

theorem walkDir_perm (excl : List String) (minB : ℚ) :
    ∀ (cs : List WTree) (pre : List String),
    (walkDir excl minB pre cs).Perm (specLargeFiles excl minB pre cs)
  | [], pre => by
    simp [walkDir, filesOf, walkSubdirs, specLargeFiles]
  | .file n sz lnk ok :: cs, pre => by
    rw [walkDir_cons_file, specLargeFiles, fileCandidate_toList]
    exact List.Perm.append_left _ (walkDir_perm excl minB cs pre)
  | .dir n dcs :: cs, pre => by
    refine (walkDir_dir_perm excl minB pre n dcs cs).trans ?_
    rw [specLargeFiles]
    refine List.Perm.append ?_ (walkDir_perm excl minB cs pre)
    by_cases h : n ∈ excl
    · rw [if_pos h, if_pos h]
    · rw [if_neg h, if_neg h]
      exact walkDir_perm excl minB dcs (pre ++ [n])
termination_by cs _ => sizeOf cs

/-- C6: the candidates the finder collects are exactly (up to traversal
order) the non-symlink, stat-ok regular files at or above the threshold
lying outside every excluded directory; a subdirectory whose name is in
the exclusion set is pruned before descent, so the walk of a tree headed
by it degenerates to the walk of its siblings; the final list is sorted
descending (by size) and truncated only after sorting; on the four-file
example with threshold 100MB exactly the 300MB and 150MB files are
returned in that order; and a 500MB file under an excluded node_modules
directory is never returned. -/
theorem claim_C6 (excl : List String) (mb : ℚ) (maxR : Nat) (cs : List WTree) :
    (walkDir excl (mb * 1024 * 1024) [] cs).Perm
      (specLargeFiles excl (mb * 1024 * 1024) [] cs)
  ∧ (∀ (pre2 : List String) (n : String) (dcs cs2 : List WTree),
      (walkDir excl (mb * 1024 * 1024) pre2 (.dir n dcs :: cs2)).Perm
        ((if n ∈ excl then []
          else walkDir excl (mb * 1024 * 1024) (pre2 ++ [n]) dcs)
          ++ walkDir excl (mb * 1024 * 1024) pre2 cs2))
  ∧ sizesDesc (find_large_files cs mb maxR excl)
  ∧ find_large_files
      [WTree.file "a50" 52428800 false true,
       WTree.file "b150" 157286400 false true,
       WTree.file "c99" 103809024 false true,
       WTree.file "d300" 314572800 false true] 100 50
      [".git", "node_modules", "__pycache__", ".venv", "venv"]
      = [(["d300"], 314572800), (["b150"], 157286400)]
  ∧ find_large_files
      [WTree.dir "node_modules" [WTree.file "big" 524288000 false true]] 100 50
      [".git", "node_modules", "__pycache__", ".venv", "venv"] = [] := by
  refine ⟨walkDir_perm excl (mb * 1024 * 1024) cs [],
    fun pre2 n dcs cs2 => walkDir_dir_perm excl (mb * 1024 * 1024) pre2 n dcs cs2,
    ?_, ?_, ?_⟩
  · exact List.Pairwise.sublist (List.take_sublist _ _)
      (sortDesc_sorted (walkDir excl (mb * 1024 * 1024) [] cs))
  · norm_num [find_large_files, walkDir, walkSubdirs, filesOf, fileCandidate,
      List.filterMap_cons, sortDescBySize, List.mergeSort, List.merge]
  · norm_num [find_large_files, walkDir, walkSubdirs, filesOf, fileCandidate,
      List.filterMap_cons, sortDescBySize, List.mergeSort, List.merge]

/-!
## C7: the application inventory filter
-/

theorem scanApps_mem (env : Env) : ∀ (items : List AppPath) (a : AppInfo),
    a ∈ scanApps env items
      ↔ ∃ it ∈ items, it.suffix = ".app"
          ∧ analyze_application env it = some a ∧ 0 < a.size := by
  intro items
  induction items with
  | nil => intro a; simp [scanApps]
  | cons it rest ih =>
    intro a
    rw [scanApps]
    by_cases hs : it.suffix = ".app"
    · rw [if_pos hs]
      cases han : analyze_application env it with
      | none =>
        show (a ∈ scanApps env rest) ↔ _
        rw [ih]
        constructor
        · rintro ⟨x, hx, h⟩
          exact ⟨x, List.mem_cons_of_mem _ hx, h⟩
        · rintro ⟨x, hx, h⟩
          rcases List.mem_cons.mp hx with hx1 | hx1
          · subst hx1
            rw [han] at h
            exact absurd h.2.1 (by simp)
          · exact ⟨x, hx1, h⟩
      | some info =>
        show (a ∈ (if info.size > 0 then [info] else []) ++ scanApps env rest) ↔ _
        by_cases hsz : 0 < info.size
        · rw [if_pos hsz]
          simp only [List.singleton_append, List.mem_cons, ih]
          constructor
          · rintro (rfl | ⟨x, hx, h⟩)
            · exact ⟨it, Or.inl rfl, hs, han, hsz⟩
            · exact ⟨x, Or.inr hx, h⟩
          · rintro ⟨x, hx1 | hx1, h1, h2, h3⟩
            · subst hx1
              rw [han] at h2
              exact Or.inl (Option.some.inj h2).symm
            · exact Or.inr ⟨x, hx1, h1, h2, h3⟩
        · rw [if_neg hsz, List.nil_append, ih]
          constructor
          · rintro ⟨x, hx, h⟩
            exact ⟨x, List.mem_cons_of_mem _ hx, h⟩
          · rintro ⟨x, hx, h1, h2, h3⟩
            rcases List.mem_cons.mp hx with hx1 | hx1
            · subst hx1
              rw [han] at h2
              exact absurd ((Option.some.inj h2) ▸ h3) hsz
            · exact ⟨x, hx1, h1, h2, h3⟩
    · rw [if_neg hs, ih]
      constructor
      · rintro ⟨x, hx, h⟩
        exact ⟨x, List.mem_cons_of_mem _ hx, h⟩
      · rintro ⟨x, hx, h1, h2, h3⟩
        rcases List.mem_cons.mp hx with hx1 | hx1
        · subst hx1; exact absurd h1 hs
        · exact ⟨x, hx1, h1, h2, h3⟩

theorem sum_map_zero (ds : List String) :
    (ds.map (fun _ => (0 : Nat))).sum = 0 := by
  induction ds with
  | nil => rfl
  | cons d rest ih => simpa using ih

/-- C7: an application appears in the inventory exactly when the folder
exists, the entry has the app-bundle suffix, its analysis succeeded and
its bundle size is nonzero (zero-size bundles are excluded entirely);
and an application with no resolvable data or cache directory anywhere
still analyzes successfully, with data_size and cache_size both 0 and
size equal to its bundle's recursive size. -/
theorem claim_C7 :
    (∀ (env : Env) (fp : Bool) (items : List AppPath) (a : AppInfo),
      a ∈ analyze_applications_folder env fp items
        ↔ fp = true ∧ ∃ it ∈ items, it.suffix = ".app"
            ∧ analyze_application env it = some a ∧ 0 < a.size)
  ∧ (∀ (env : Env) (app : AppPath),
      (∀ s, env.appSupport s = none) → (∀ s, env.caches s = none) →
      app.present = true → app.statOk = true →
      ∃ info, analyze_application env app = some info
        ∧ info.data_size = 0 ∧ info.cache_size = 0
        ∧ info.size = get_directory_size app.children) := by
  constructor
  · intro env fp items a
    cases fp
    · simp [analyze_applications_folder]
    · rw [analyze_applications_folder, if_pos rfl, scanApps_mem]
      simp
  · intro env app hA hC hp hst
    rw [analyze_application, if_pos (by simp [hp]), if_pos (by simp [hst])]
    refine ⟨_, rfl, ?_, ?_, rfl⟩ <;>
    · simp only
      split
      · simp [chrome_analyze_data_size, chrome_analyze_cache_size,
          chrome_data_folders, chrome_cache_folders, hA, hC]
      · cases hlm : lookupMapping app.stem with
        | none => simp [hlm, hA, hC]
        | some p => simp [hlm, hA, hC, sum_map_zero]

/-- Witness for C7: a 3-byte bundle in an environment with no support or
cache directories at all analyzes to a record with zero data and cache
sizes. -/
theorem claim_C7_witness :
    ∃ info, analyze_application
        ⟨fun _ => none, fun _ => none, none, false⟩
        ⟨"Foo", ".app", true, [FSNode.file "x" ⟨3, 0, 0, true, true⟩],
          true, 0, 0, none⟩ = some info
      ∧ info.data_size = 0 ∧ info.cache_size = 0
      ∧ info.size = get_directory_size [FSNode.file "x" ⟨3, 0, 0, true, true⟩] :=
  claim_C7.2 ⟨fun _ => none, fun _ => none, none, false⟩
    ⟨"Foo", ".app", true, [FSNode.file "x" ⟨3, 0, 0, true, true⟩],
      true, 0, 0, none⟩
    (fun _ => rfl) (fun _ => rfl) rfl rfl

end MacOptima
